import Mathlib

/-!
Verification development for the `toml-cfg` configuration-resolution engine.

The embedding below translates the resolution logic of `src/lib.rs`:

* `find_root_path` — scans the `rustc` invocation arguments for the value of
  the last recognized `--out-dir` flag, then strips trailing path segments
  until the remaining path ends with the sentinel segment `"target"`, strips
  one more segment, and returns that path (or `none`).
* `load_crate_cfg` — reads the override file, parses it (the TOML parser is an
  external collaborator and is passed in as a function), and looks up the
  building crate's name in the top-level table.
* the per-field resolution logic of the `toml_config` attribute body
  (`resolveVal` here): an overridden field takes the override literal's
  serialized tokens, except that a field whose `#[default(...)]` token string
  starts with `(<field type> ::` is treated as enum-like and the override
  (which must then be a TOML string) is emitted as the path `<type>::<string>`.
* the orchestrating pipeline (`toml_config_resolve` here), including the
  `TOML_CFG=require_cfg_present` strict-mode check.

Paths are modelled as lists of segments obtained by splitting on the solidus,
token streams as their display strings, and TOML values are restricted to the
literal kinds the override file interface admits (string, integer, boolean).
Panics of the original procedural code are modelled as `Except.error`.
-/

namespace TomlCfg

/-- Boolean substring containment on the underlying character lists; models
Rust `str::contains` as used for the `"::"` test. -/
def strContains (hay needle : String) : Bool :=
  decide (needle.data <:+: hay.data)

/-- Boolean test that `pre` is a leading piece of `hay`; models Rust
`str::starts_with`. -/
def strStartsWith (hay pre : String) : Bool :=
  decide (pre.data <+: hay.data)

/-- Untyped TOML literal appearing as an override value. The override-file
interface admits flat literals; the kinds needed by the resolver's branches
are strings and non-strings, so string, integer and boolean are modelled. -/
inductive TomlValue where
  | str (s : String)
  | int (n : Int)
  | bool (b : Bool)
deriving DecidableEq

/-- Display serialization of a TOML value, modelling `toml::Value::to_string`
as used to turn the override literal into Rust tokens: strings are quoted,
integers and booleans print bare. (Escape sequences inside strings are not
modelled; the override literals of interest contain none.) -/
def TomlValue.serialize : TomlValue → String
  | .str s => "\"" ++ s ++ "\""
  | .int n => toString n
  | .bool b => if b then "true" else "false"

/-- Models `toml::Value::as_str`: `some` exactly for string literals. -/
def TomlValue.as_str : TomlValue → Option String
  | .str s => some s
  | _ => none

/-- The per-crate override sub-table (`Defn` in the source): field name to
raw TOML value. A `HashMap` in the source; modelled as an association list
looked up with `List.lookup`. -/
structure Defn where
  vals : List (String × TomlValue)
deriving DecidableEq

/-- `Defn::default()`: the empty sub-table. -/
def Defn.default : Defn := ⟨[]⟩

/-- The whole parsed override file (`Config` in the source): crate name to
its override sub-table. -/
structure Config where
  crates : List (String × Defn)
deriving DecidableEq

/-- One schema field as the resolver sees it: its identifier, the display
string of its declared type's tokens, and the display string of the tokens of
its `#[default(...)]` attribute (a parenthesized group, e.g. `"(32)"`). -/
structure FieldDefn where
  name : String
  ty : String
  default_tokens : String
deriving DecidableEq

/-- A resolved field expression: either a raw token string (the default
tokens, or the serialized override literal), or a qualified variant reference
`ty::variant` as produced by the enum branch. -/
inductive Expr where
  | tokens (s : String)
  | path (ty variant : String)
deriving DecidableEq

/-- Shape check used to model `format_ident!` succeeding: a nonempty
identifier made of an alphabetic character or a low line followed by
alphanumeric characters or low lines. -/
def isRustIdent (s : String) : Bool :=
  match s.data with
  | [] => false
  | c :: rest => (c.isAlpha || c = '_') && rest.all (fun d => d.isAlphanum || d = '_')

/-- The enum-detection test of the resolver (`is_enum` in the source): the
default attribute's token string contains `"::"` and starts with
`"(<type tokens> ::"`. -/
def isEnumField (f : FieldDefn) : Bool :=
  strContains f.default_tokens "::" &&
    strStartsWith f.default_tokens (("(" ++ f.ty) ++ " ::")

/-- Per-field resolution, modelling the body of the `for field in
struct_defn.fields` loop of `toml_config` (the `val` computation). `cfg` is
the crate's override sub-table (already defaulted to empty when absent).
Panics of the source (`expect` on a non-string override for an enum-like
field, and `format_ident!` on a non-identifier string) are `Except.error`;
for the modelled literal kinds the token-stream parse of the serialized
literal always succeeds. -/
def resolveVal (cfg : Defn) (f : FieldDefn) : Except String Expr :=
  match List.lookup f.name cfg.vals with
  | some t =>
      let t_string := t.serialize
      if isEnumField f then
        match t.as_str with
        | some s =>
            if isRustIdent s then .ok (.path f.ty s)
            else .error ("Failed to parse `" ++ (s ++ "` as a valid identifier!"))
        | none => .error ("Failed to parse `" ++ (t_string ++ "` as a valid string!"))
      else .ok (.tokens t_string)
  | none => .ok (.tokens f.default_tokens)

/-- Resolution of the whole field list in declaration order, aborting at the
first failing field as the source's panics do. -/
def resolveFields (cfg : Defn) : List FieldDefn → Except String (List (String × Expr))
  | [] => .ok []
  | f :: rest =>
      match resolveVal cfg f with
      | .error e => .error e
      | .ok v =>
          match resolveFields cfg rest with
          | .error e => .error e
          | .ok vs => .ok ((f.name, v) :: vs)

/-- Models the `TOML_CFG` environment check: strict mode holds when the
variable is set and its value contains `"require_cfg_present"`. -/
def requireCfgPresent (tomlCfg : Option String) : Bool :=
  match tomlCfg with
  | some val => strContains val "require_cfg_present"
  | none => false

/-- The strict-mode panic message of the source. -/
def strictCfgMsg : String :=
  "TOML_CFG=require_cfg_present set, but valid config not found!"

/-- Models the scan of `find_root_path` over the `rustc` arguments: every
time the current argument equals `--out-dir`, the following argument is
consumed as the new hint (overwriting any earlier one; consuming `none` when
the flag is last). -/
def scanArgs : List String → Option String → Option String
  | [], acc => acc
  | [a], acc => if a = "--out-dir" then none else acc
  | a :: v :: rest, acc =>
      if a = "--out-dir" then scanArgs rest (some v)
      else scanArgs (v :: rest) acc

/-- Splits a path string into segments at each solidus; models
`PathBuf::from` component decomposition (without normalization of empty
segments). -/
def splitSegs : List Char → List Char → List String
  | [], acc => [String.mk acc.reverse]
  | c :: rest, acc =>
      if c = '/' then String.mk acc.reverse :: splitSegs rest []
      else splitSegs rest (c :: acc)

/-- Path-string to segment list. -/
def splitPath (s : String) : List String := splitSegs s.data []

/-- Models `Path::ends_with` for a single-segment pattern: the final segment
equals `name`. -/
def pathEndsWith (segs : List String) (name : String) : Bool :=
  match segs.getLast? with
  | some s => s == name
  | none => false

/-- Models the stripping loop of `find_root_path`: while the path does not
end with `"target"`, pop the last segment, returning `none` when nothing is
left to pop; on exit pop once more (from the sentinel directory to its
parent) and return the remaining path. -/
def stripToTarget (segs : List String) : Option (List String) :=
  if pathEndsWith segs "target" then some segs.dropLast
  else if _h : segs.isEmpty then none
  else stripToTarget segs.dropLast
termination_by segs.length
decreasing_by
  simp only [List.length_dropLast]
  have hne : segs ≠ [] := by simpa using _h
  have hpos : 0 < segs.length := List.length_pos.mpr hne
  omega

/-- The root-discovery heuristic `find_root_path`: take the value of the last
recognized `--out-dir` flag (if any) and strip it back to the parent of the
last `"target"` segment. -/
def find_root_path (args : List String) : Option (List String) :=
  match scanArgs args none with
  | none => none
  | some out_dir => stripToTarget (splitPath out_dir)

/-- Models `load_crate_cfg`: read the file at `path` through the filesystem
map `fs` (`none` models a read failure), parse its contents through the
external TOML parser `parse` (`none` models a parse failure), obtain the
crate name from `pkgName` (the `CARGO_PKG_NAME` variable), and look the name
up in the top-level table. -/
def load_crate_cfg (fs : List String → Option String)
    (parse : String → Option Config) (pkgName : Option String)
    (path : List String) : Option Defn := do
  let contents ← fs path
  let parsed ← parse contents
  let name ← pkgName
  List.lookup name parsed.crates

/-- The override sub-table obtained by the pipeline of `toml_config`: root
discovery, then `cfg.toml` appended to the root, then `load_crate_cfg`. -/
def maybeCfg (args : List String) (fs : List String → Option String)
    (parse : String → Option Config) (pkgName : Option String) : Option Defn :=
  let root_path := find_root_path args
  let cfg_path := root_path.map (fun c => c ++ ["cfg.toml"])
  cfg_path.bind (load_crate_cfg fs parse pkgName)

/-- The resolution pipeline of the `toml_config` attribute: strict-mode check
against the obtained sub-table (the source's `assert!` is an error here),
then per-field resolution with the sub-table defaulted to empty when absent. -/
def toml_config_resolve (fields : List FieldDefn) (tomlCfg : Option String)
    (args : List String) (fs : List String → Option String)
    (parse : String → Option Config) (pkgName : Option String) :
    Except String (List (String × Expr)) :=
  let require_cfg_present := requireCfgPresent tomlCfg
  let m := maybeCfg args fs parse pkgName
  let got_cfg := m.isSome
  if require_cfg_present && !got_cfg then .error strictCfgMsg
  else resolveFields (m.getD Defn.default) fields

example : splitPath "proj/target/debug" = ["proj", "target", "debug"] := by decide

example : resolveVal ⟨[("buffer_size", .int 4096)]⟩ ⟨"buffer_size", "usize", "(32)"⟩
    = .ok (.tokens "4096") := by rfl

example : resolveVal ⟨[("choice", .str "Other")]⟩ ⟨"choice", "Choice", "(Choice :: One)"⟩
    = .ok (.path "Choice" "Other") := by rfl

/-- C1: if the component's override sub-table is absent (so the resolver runs
on the defaulted empty table) or the field's name has no entry in it, the
field resolver returns the field's declared default tokens unchanged. -/
theorem default_fallback_of_no_override (cfg : Defn) (f : FieldDefn)
    (h : cfg = Defn.default ∨ List.lookup f.name cfg.vals = none) :
    resolveVal cfg f = .ok (.tokens f.default_tokens) := by
  have hl : List.lookup f.name cfg.vals = none := by
    rcases h with h | h
    · subst h; rfl
    · exact h
  unfold resolveVal
  rw [hl]

/-- Witness for C1: a field with no matching override entry resolves to its
declared default tokens. -/
theorem default_fallback_of_no_override_witness :
    resolveVal ⟨[("greeting", .str "hi")]⟩ ⟨"buffer_size", "usize", "(32)"⟩
      = .ok (.tokens "(32)") :=
  default_fallback_of_no_override _ _ (Or.inr (by decide))

/-- C2: for a scalar-classified field (the enum-detection test fails) whose
name has an entry in the override sub-table — in particular any
type-compatible entry — the resolver returns the override literal's
serialized tokens; whenever those differ from the default tokens the result
is therefore not the declared default. -/
theorem scalar_override_wins (cfg : Defn) (f : FieldDefn) (t : TomlValue)
    (hscalar : isEnumField f = false)
    (hlk : List.lookup f.name cfg.vals = some t) :
    resolveVal cfg f = .ok (.tokens t.serialize)
    ∧ (t.serialize ≠ f.default_tokens →
        resolveVal cfg f ≠ .ok (.tokens f.default_tokens)) := by
  have hres : resolveVal cfg f = .ok (.tokens t.serialize) := by
    unfold resolveVal
    rw [hlk]
    simp [hscalar]
  refine ⟨hres, fun hne hc => hne ?_⟩
  rw [hres] at hc
  simpa using hc

/-- Witness for C2 (Scenario B of the specification): an integer override for
an integer-defaulted scalar field resolves to the override, not the default. -/
theorem scalar_override_wins_witness :
    resolveVal ⟨[("buffer_size", .int 4096)]⟩ ⟨"buffer_size", "usize", "(32)"⟩
      = .ok (.tokens "4096") :=
  (scalar_override_wins _ _ (TomlValue.int 4096) (by decide) (by decide)).1

/-- C3: for an enum-classified field, a string override naming a variant (an
identifier) resolves to the qualified reference `ty::variant`, not the string
literal; a non-string override for such a field is a fatal error. -/
theorem variant_override_resolution (cfg : Defn) (f : FieldDefn) (t : TomlValue)
    (henum : isEnumField f = true)
    (hlk : List.lookup f.name cfg.vals = some t) :
    (∀ s, t = .str s → isRustIdent s = true →
        resolveVal cfg f = .ok (.path f.ty s))
    ∧ (t.as_str = none →
        resolveVal cfg f =
          .error ("Failed to parse `" ++ (t.serialize ++ "` as a valid string!"))) := by
  constructor
  · intro s hs hid
    subst hs
    unfold resolveVal
    rw [hlk]
    simp [henum, TomlValue.as_str, hid]
  · intro hstr
    unfold resolveVal
    rw [hlk]
    simp [henum, hstr]

/-- Witness for C3 (Scenario C of the specification): the string override
`"Other"` for the enum-classified field `choice` of type `Choice` resolves to
the reference `Choice::Other`. -/
theorem variant_override_resolution_witness :
    resolveVal ⟨[("choice", .str "Other")]⟩ ⟨"choice", "Choice", "(Choice :: One)"⟩
      = .ok (.path "Choice" "Other") :=
  (variant_override_resolution _ _ _ (by decide) (by decide)).1 "Other" rfl (by decide)

/-- Counterexample to C4: a string override for a scalar field declared with
an integer default is accepted by the resolver (the quoted literal is emitted
as the field's tokens) and no error of any kind is raised, contradicting the
claim that a kind-incompatible literal is a fatal resolution error. -/
theorem scalar_kind_mismatch_not_rejected :
    resolveVal ⟨[("buffer_size", .str "hello")]⟩ ⟨"buffer_size", "usize", "(32)"⟩
      = .ok (.tokens "\"hello\"")
    ∧ ∀ msg, resolveVal ⟨[("buffer_size", .str "hello")]⟩ ⟨"buffer_size", "usize", "(32)"⟩
        ≠ .error msg := by
  have hres : resolveVal ⟨[("buffer_size", .str "hello")]⟩ ⟨"buffer_size", "usize", "(32)"⟩
      = Except.ok (Expr.tokens "\"hello\"") := rfl
  refine ⟨hres, fun msg h => ?_⟩
  rw [hres] at h
  exact Except.noConfusion h

/-- C4 (amended): for a scalar-classified field with an override entry
present, the resolver performs no kind check at all: the override literal's
serialized tokens are emitted unchanged regardless of the field's declared
type, and no resolution-time error occurs; kind incompatibility surfaces only
later, outside the resolver, when the generated code is type-checked. -/
theorem scalar_override_unchecked (cfg : Defn) (f : FieldDefn) (t : TomlValue)
    (hscalar : isEnumField f = false)
    (hlk : List.lookup f.name cfg.vals = some t) :
    resolveVal cfg f = .ok (.tokens t.serialize)
    ∧ ∀ msg, resolveVal cfg f ≠ .error msg := by
  have hres : resolveVal cfg f = .ok (.tokens t.serialize) := by
    unfold resolveVal
    rw [hlk]
    simp [hscalar]
  refine ⟨hres, fun msg h => ?_⟩
  rw [hres] at h
  exact Except.noConfusion h

/-- Witness for the amended C4: the kind-incompatible string override is
emitted as the resolved tokens of the integer-defaulted field. -/
theorem scalar_override_unchecked_witness :
    resolveVal ⟨[("buffer_size", .str "hello")]⟩ ⟨"buffer_size", "usize", "(32)"⟩
      = .ok (.tokens "\"hello\"") :=
  (scalar_override_unchecked _ _ (TomlValue.str "hello") (by decide) (by decide)).1

/-- Counterexample to C5: for the enum-classified field `choice` of type
`Choice` (declared variants `One`, `Other`, `Third`), the override string
`"Unknown"` — naming no declared variant — is resolved without any error to
the reference `Choice::Unknown`, contradicting the claim that an unknown
variant name is a fatal, field-scoped resolution error. The resolver never
receives the list of declared variants, so it cannot check the name. -/
theorem unknown_variant_not_rejected :
    resolveVal ⟨[("choice", .str "Unknown")]⟩ ⟨"choice", "Choice", "(Choice :: One)"⟩
      = .ok (.path "Choice" "Unknown")
    ∧ ∀ msg, resolveVal ⟨[("choice", .str "Unknown")]⟩ ⟨"choice", "Choice", "(Choice :: One)"⟩
        ≠ .error msg := by
  have hres : resolveVal ⟨[("choice", .str "Unknown")]⟩ ⟨"choice", "Choice", "(Choice :: One)"⟩
      = Except.ok (Expr.path "Choice" "Unknown") := rfl
  refine ⟨hres, fun msg h => ?_⟩
  rw [hres] at h
  exact Except.noConfusion h

/-- C5 (amended): for an enum-classified field, any string override that is a
well-formed identifier resolves without error to the reference `ty::name`,
whether or not the name matches a declared variant of the type; unknown
variant names are not detected at resolution time and surface only
downstream, when the emitted reference fails to compile. -/
theorem variant_override_unvalidated (cfg : Defn) (f : FieldDefn) (s : String)
    (henum : isEnumField f = true)
    (hlk : List.lookup f.name cfg.vals = some (.str s))
    (hid : isRustIdent s = true) :
    resolveVal cfg f = .ok (.path f.ty s)
    ∧ ∀ msg, resolveVal cfg f ≠ .error msg := by
  have hres : resolveVal cfg f = .ok (.path f.ty s) := by
    unfold resolveVal
    rw [hlk]
    simp [henum, TomlValue.as_str, hid]
  refine ⟨hres, fun msg h => ?_⟩
  rw [hres] at h
  exact Except.noConfusion h

/-- Witness for the amended C5: the unknown variant name `"Unknown"` is
emitted as a reference without validation. -/
theorem variant_override_unvalidated_witness :
    resolveVal ⟨[("choice", .str "Unknown")]⟩ ⟨"choice", "Choice", "(Choice :: One)"⟩
      = .ok (.path "Choice" "Unknown") :=
  (variant_override_unvalidated _ _ _ (by decide) (by decide) (by decide)).1

/-- Counterexample to C6: the field `choice : usize` with default
`(Choice :: A as usize)` (taken verbatim from the repository's example crate)
has a qualifying-path token sequence in its default expression, yet it is
classified as scalar, not variant-typed — an integer override is emitted as a
bare literal — contradicting the claim that containment of a qualifying path
is exactly the classification test. -/
theorem enum_detection_not_containment :
    strContains "(Choice :: A as usize)" "::" = true
    ∧ isEnumField ⟨"choice", "usize", "(Choice :: A as usize)"⟩ = false
    ∧ resolveVal ⟨[("choice", .int 1)]⟩ ⟨"choice", "usize", "(Choice :: A as usize)"⟩
        = .ok (.tokens "1") :=
  ⟨by decide, by decide, by rfl⟩

/-- C6 (amended): a field is classified as variant-typed exactly when its
default expression's token string starts with `(<field type> ::` — that is,
the qualifying path must stand at the head of the default and its head
segment must be the field's own declared type; the containment conjunct of
the source's test is redundant, and mere containment of a qualifying path
elsewhere in the default does not mark the field variant-typed. -/
theorem enum_detection_eq_head_test (f : FieldDefn) :
    isEnumField f = strStartsWith f.default_tokens (("(" ++ f.ty) ++ " ::") := by
  unfold isEnumField
  cases hsw : strStartsWith f.default_tokens (("(" ++ f.ty) ++ " ::") with
  | false => simp
  | true =>
      simp only [Bool.and_true]
      have hpre : (("(" ++ f.ty) ++ " ::").data <+: f.default_tokens.data :=
        of_decide_eq_true hsw
      have hsuf : "::".data <:+ (("(" ++ f.ty) ++ " ::").data := by
        rw [String.data_append]
        exact (by decide : "::".data <:+ " ::".data).trans (List.suffix_append _ _)
      have hinf : "::".data <:+: f.default_tokens.data :=
        (List.IsSuffix.isInfix hsuf).trans (List.IsPrefix.isInfix hpre)
      exact decide_eq_true hinf

/-- A list of arguments containing no `--out-dir` token leaves the
accumulated hint unchanged. -/
theorem scanArgs_no_flag (l : List String) (acc : Option String)
    (h : "--out-dir" ∉ l) : scanArgs l acc = acc := by
  induction l generalizing acc with
  | nil => rfl
  | cons a rest ih =>
      have ha : a ≠ "--out-dir" := fun e => h (by simp [e])
      have h' : "--out-dir" ∉ rest := fun hm => h (List.mem_cons_of_mem _ hm)
      have hstep : scanArgs (a :: rest) acc = scanArgs rest acc := by
        cases rest with
        | nil => simp [scanArgs, ha]
        | cons b r => simp [scanArgs, ha]
      rw [hstep]
      exact ih acc h'

/-- When the flag stands at the head, the next argument becomes the hint and,
with no further flag, survives to the end of the scan. -/
theorem scanArgs_flag_head (l2 : List String) (v : String) (acc : Option String)
    (hl2 : "--out-dir" ∉ l2) :
    scanArgs ("--out-dir" :: v :: l2) acc = some v := by
  have hstep : scanArgs ("--out-dir" :: v :: l2) acc = scanArgs l2 (some v) := by
    simp [scanArgs]
  rw [hstep]
  exact scanArgs_no_flag l2 (some v) hl2

/-- No `--out-dir` token directly follows another `--out-dir` token. -/
def noAdjacentOutDir : List String → Bool
  | a :: b :: rest => !(a == "--out-dir" && b == "--out-dir") && noAdjacentOutDir (b :: rest)
  | _ => true

/-- Adjacency-freedom passes to the tail. -/
theorem noAdjacentOutDir_tail {a : String} {l : List String}
    (h : noAdjacentOutDir (a :: l) = true) : noAdjacentOutDir l = true := by
  cases l with
  | nil => rfl
  | cons b rest =>
      simp only [noAdjacentOutDir, Bool.and_eq_true] at h
      exact h.2

/-- The scan resolves to the value following the last `--out-dir` token,
provided no `--out-dir` token is consumed as the value of a preceding one. -/
theorem scanArgs_last_recognized (l1 l2 : List String) (v : String) (acc : Option String)
    (hadj : noAdjacentOutDir (l1 ++ "--out-dir" :: v :: l2) = true)
    (hl2 : "--out-dir" ∉ l2) :
    scanArgs (l1 ++ "--out-dir" :: v :: l2) acc = some v := by
  suffices H : ∀ n (l1 : List String) (acc : Option String), l1.length ≤ n →
      noAdjacentOutDir (l1 ++ "--out-dir" :: v :: l2) = true →
      scanArgs (l1 ++ "--out-dir" :: v :: l2) acc = some v from
    H l1.length l1 acc le_rfl hadj
  intro n
  induction n with
  | zero =>
      intro l1 acc hlen hadj1
      have he : l1 = [] := List.length_eq_zero.mp (Nat.le_zero.mp hlen)
      subst he
      exact scanArgs_flag_head l2 v acc hl2
  | succ n ih =>
      intro l1 acc hlen hadj1
      cases l1 with
      | nil => exact scanArgs_flag_head l2 v acc hl2
      | cons a rest =>
          by_cases ha : a = "--out-dir"
          · subst ha
            cases rest with
            | nil =>
                exfalso
                simp [noAdjacentOutDir] at hadj1
            | cons b rest' =>
                have hb : b ≠ "--out-dir" := by
                  intro e
                  subst e
                  simp [noAdjacentOutDir] at hadj1
                have hadj' : noAdjacentOutDir (rest' ++ "--out-dir" :: v :: l2) = true :=
                  noAdjacentOutDir_tail (noAdjacentOutDir_tail hadj1)
                have hlen' : rest'.length ≤ n := by
                  simp only [List.length_cons] at hlen
                  omega
                have hstep :
                    scanArgs (("--out-dir" :: b :: rest') ++ "--out-dir" :: v :: l2) acc
                      = scanArgs (rest' ++ "--out-dir" :: v :: l2) (some b) := by
                  simp [scanArgs]
                rw [hstep]
                exact ih rest' (some b) hlen' hadj'
          · have hadj' : noAdjacentOutDir (rest ++ "--out-dir" :: v :: l2) = true :=
              noAdjacentOutDir_tail hadj1
            have hlen' : rest.length ≤ n := by
              simp only [List.length_cons] at hlen
              omega
            have hstep : scanArgs ((a :: rest) ++ "--out-dir" :: v :: l2) acc
                = scanArgs (rest ++ "--out-dir" :: v :: l2) acc := by
              cases rest with
              | nil => simp [scanArgs, ha]
              | cons b r => simp [scanArgs, ha]
            rw [hstep]
            exact ih rest acc hlen' hadj'

/-- A path whose segments never contain the sentinel strips all the way down
and reports "not found". -/
theorem stripToTarget_eq_none (segs : List String) (h : "target" ∉ segs) :
    stripToTarget segs = none := by
  induction segs using List.reverseRecOn with
  | nil =>
      rw [stripToTarget]
      rfl
  | append_singleton l a ih =>
      have h1 : "target" ∉ l := fun hm => h (List.mem_append_left _ hm)
      have h2 : a ≠ "target" := fun e => h (by simp [e])
      have hend : pathEndsWith (l ++ [a]) "target" = false := by
        simp [pathEndsWith, List.getLast?_concat, h2]
      have hempty : (l ++ [a]).isEmpty = false := by simp
      rw [stripToTarget]
      simp only [hend, Bool.false_eq_true, if_false, hempty, dif_neg, List.dropLast_concat]
      exact ih h1

/-- A path decomposing as `l1 ++ "target" :: l2` with no later sentinel strips
back to exactly `l1`. -/
theorem stripToTarget_concat (l1 l2 : List String) (h : "target" ∉ l2) :
    stripToTarget (l1 ++ "target" :: l2) = some l1 := by
  induction l2 using List.reverseRecOn with
  | nil =>
      have hend : pathEndsWith (l1 ++ ["target"]) "target" = true := by
        simp [pathEndsWith, List.getLast?_concat]
      rw [stripToTarget]
      simp [hend, List.dropLast_concat]
  | append_singleton l a ih =>
      have h1 : "target" ∉ l := fun hm => h (List.mem_append_left _ hm)
      have h2 : a ≠ "target" := fun e => h (by simp [e])
      have hsh : l1 ++ "target" :: (l ++ [a]) = (l1 ++ "target" :: l) ++ [a] := by
        simp
      rw [hsh, stripToTarget]
      have hend : pathEndsWith ((l1 ++ "target" :: l) ++ [a]) "target" = false := by
        unfold pathEndsWith
        rw [List.getLast?_concat]
        simp [h2]
      have hempty : ((l1 ++ "target" :: l) ++ [a]).isEmpty = false := by simp
      simp only [hend, Bool.false_eq_true, if_false, hempty, dif_neg, List.dropLast_concat]
      exact ih h1

/-- C7: root discovery strips trailing segments from the out-dir hint until
the final segment equals the sentinel `"target"`, strips one more segment and
returns that path; if no segment ever matches, it returns "not found", and if
no hint was scanned from the arguments at all it returns "not found"
immediately. -/
theorem find_root_path_spec (args : List String) :
    (scanArgs args none = none → find_root_path args = none)
    ∧ (∀ hint, scanArgs args none = some hint → "target" ∉ splitPath hint →
        find_root_path args = none)
    ∧ (∀ hint l1 l2, scanArgs args none = some hint →
        splitPath hint = l1 ++ "target" :: l2 → "target" ∉ l2 →
        find_root_path args = some l1) := by
  refine ⟨?_, ?_, ?_⟩
  · intro h
    simp [find_root_path, h]
  · intro hint h hmem
    simp only [find_root_path, h]
    exact stripToTarget_eq_none _ hmem
  · intro hint l1 l2 h hdec hmem
    simp only [find_root_path, h]
    rw [hdec]
    exact stripToTarget_concat _ _ hmem

/-- Witness for C7: an invocation with hint `proj/target/debug` discovers the
root `proj`. -/
theorem find_root_path_spec_witness :
    find_root_path ["rustc", "--out-dir", "proj/target/debug"] = some ["proj"] :=
  (find_root_path_spec _).2.2 "proj/target/debug" ["proj"] ["debug"] rfl (by decide)
    (by decide)

/-- Counterexample to C10: with arguments `["--out-dir", "--out-dir",
"proj/target/x"]` the last occurrence of `--out-dir` is followed by
`proj/target/x`, so the claim predicts the hint `proj/target/x` and the root
`proj`; but the second `--out-dir` token is consumed as the value of the
first, the scan yields the hint `"--out-dir"`, and root discovery returns
"not found". -/
theorem out_dir_last_occurrence_counterexample :
    scanArgs ["--out-dir", "--out-dir", "proj/target/x"] none = some "--out-dir"
    ∧ find_root_path ["--out-dir", "--out-dir", "proj/target/x"] = none
    ∧ stripToTarget (splitPath "proj/target/x") = some ["proj"] := by
  refine ⟨rfl, ?_, ?_⟩
  · have h1 : scanArgs ["--out-dir", "--out-dir", "proj/target/x"] none
        = some "--out-dir" := rfl
    simp only [find_root_path, h1]
    exact stripToTarget_eq_none _ (by decide)
  · have h2 : splitPath "proj/target/x" = ["proj"] ++ "target" :: ["x"] := by decide
    rw [h2]
    exact stripToTarget_concat _ _ (by decide)

/-- C10 (amended): each recognized `--out-dir` consumes the next argument as
its value, so a `--out-dir` token consumed as a value is not itself treated
as a flag; when no `--out-dir` token directly follows another, root discovery
uses the value following the last occurrence of the flag and ignores all
earlier occurrences. -/
theorem out_dir_last_recognized_flag (l1 l2 : List String) (v : String)
    (hadj : noAdjacentOutDir (l1 ++ "--out-dir" :: v :: l2) = true)
    (hl2 : "--out-dir" ∉ l2) :
    scanArgs (l1 ++ "--out-dir" :: v :: l2) none = some v
    ∧ find_root_path (l1 ++ "--out-dir" :: v :: l2) = stripToTarget (splitPath v) := by
  have h := scanArgs_last_recognized l1 l2 v none hadj hl2
  refine ⟨h, ?_⟩
  simp only [find_root_path, h]

/-- Witness for the amended C10: of two `--out-dir` flags with distinct
values, the later value is the one that feeds root discovery. -/
theorem out_dir_last_recognized_flag_witness :
    scanArgs ["--out-dir", "a/target", "--out-dir", "b/target"] none = some "b/target" :=
  (out_dir_last_recognized_flag ["--out-dir", "a/target"] [] "b/target" (by decide)
    (by decide)).1

/-- Field resolution with no matching entry yields the default tokens. -/
theorem resolveVal_lookup_none (cfg : Defn) (f : FieldDefn)
    (hlk : List.lookup f.name cfg.vals = none) :
    resolveVal cfg f = .ok (.tokens f.default_tokens) := by
  unfold resolveVal
  rw [hlk]

/-- Field resolution of a scalar-classified field with an entry yields the
serialized literal. -/
theorem resolveVal_scalar (cfg : Defn) (f : FieldDefn) (t : TomlValue)
    (he : isEnumField f = false) (hlk : List.lookup f.name cfg.vals = some t) :
    resolveVal cfg f = .ok (.tokens t.serialize) := by
  unfold resolveVal
  rw [hlk]
  simp [he]

/-- Field resolution of an enum-classified field with a well-formed string
entry yields the qualified reference. -/
theorem resolveVal_enum_str (cfg : Defn) (f : FieldDefn) (s : String)
    (he : isEnumField f = true) (hlk : List.lookup f.name cfg.vals = some (.str s))
    (hid : isRustIdent s = true) :
    resolveVal cfg f = .ok (.path f.ty s) := by
  unfold resolveVal
  rw [hlk]
  simp [he, TomlValue.as_str, hid]

/-- Field resolution of an enum-classified field with a malformed string
entry fails with the identifier message. -/
theorem resolveVal_enum_str_bad (cfg : Defn) (f : FieldDefn) (s : String)
    (he : isEnumField f = true) (hlk : List.lookup f.name cfg.vals = some (.str s))
    (hid : isRustIdent s = false) :
    resolveVal cfg f = .error ("Failed to parse `" ++ (s ++ "` as a valid identifier!")) := by
  unfold resolveVal
  rw [hlk]
  simp [he, TomlValue.as_str, hid]

/-- Field resolution of an enum-classified field with a non-string entry
fails with the string message. -/
theorem resolveVal_enum_nonstr (cfg : Defn) (f : FieldDefn) (t : TomlValue)
    (he : isEnumField f = true) (hlk : List.lookup f.name cfg.vals = some t)
    (hs : t.as_str = none) :
    resolveVal cfg f = .error ("Failed to parse `" ++ (t.serialize ++ "` as a valid string!")) := by
  unfold resolveVal
  rw [hlk]
  simp [he, hs]

/-- Every error a single field resolution can produce begins with the token
parse-failure text. -/
theorem resolveVal_error_shape (cfg : Defn) (f : FieldDefn) (e : String)
    (h : resolveVal cfg f = .error e) : ∃ r, e = "Failed to parse `" ++ r := by
  cases hlk : List.lookup f.name cfg.vals with
  | none =>
      rw [resolveVal_lookup_none cfg f hlk] at h
      exact absurd h (by simp)
  | some t =>
      by_cases he : isEnumField f = true
      · cases t with
        | str s =>
            by_cases hid : isRustIdent s = true
            · rw [resolveVal_enum_str cfg f s he hlk hid] at h
              exact absurd h (by simp)
            · rw [resolveVal_enum_str_bad cfg f s he hlk
                (Bool.not_eq_true _ ▸ hid)] at h
              exact ⟨s ++ "` as a valid identifier!", (Except.error.inj h).symm⟩
        | int n =>
            rw [resolveVal_enum_nonstr cfg f (.int n) he hlk rfl] at h
            exact ⟨(TomlValue.int n).serialize ++ "` as a valid string!",
              (Except.error.inj h).symm⟩
        | bool b =>
            rw [resolveVal_enum_nonstr cfg f (.bool b) he hlk rfl] at h
            exact ⟨(TomlValue.bool b).serialize ++ "` as a valid string!",
              (Except.error.inj h).symm⟩
      · rw [resolveVal_scalar cfg f t (Bool.not_eq_true _ ▸ he) hlk] at h
        exact absurd h (by simp)

/-- The strict-mode message never coincides with a field-resolution error. -/
theorem failed_ne_strict (r : String) : "Failed to parse `" ++ r ≠ strictCfgMsg := by
  intro h
  have hd : ("Failed to parse `" ++ r).data = strictCfgMsg.data := by rw [h]
  rw [String.data_append] at hd
  have h1 : ("Failed to parse `".data ++ r.data).head? = some 'F' := by
    have hc : "Failed to parse `".data = 'F' :: "ailed to parse `".data := by decide
    rw [hc]
    rfl
  rw [hd] at h1
  have h2 : strictCfgMsg.data.head? = some 'T' := by decide
  rw [h2] at h1
  exact absurd h1 (by decide)

/-- Errors of the whole field-resolution pass come from some single field. -/
theorem resolveFields_error_shape (cfg : Defn) (fields : List FieldDefn) (e : String)
    (h : resolveFields cfg fields = .error e) : ∃ r, e = "Failed to parse `" ++ r := by
  induction fields with
  | nil => exact absurd h (by simp [resolveFields])
  | cons f rest ih =>
      cases hv : resolveVal cfg f with
      | error e1 =>
          have hh : resolveFields cfg (f :: rest) = .error e1 := by
            simp [resolveFields, hv]
          rw [hh] at h
          exact (Except.error.inj h) ▸ resolveVal_error_shape cfg f e1 hv
      | ok v =>
          cases hr : resolveFields cfg rest with
          | error e2 =>
              have hh : resolveFields cfg (f :: rest) = .error e2 := by
                simp [resolveFields, hv, hr]
              rw [hh] at h
              rw [Except.error.inj h] at hr
              exact ih hr
          | ok vs =>
              have hh : resolveFields cfg (f :: rest) = .ok ((f.name, v) :: vs) := by
                simp [resolveFields, hv, hr]
              rw [hh] at h
              exact absurd h (by simp)

/-- With the empty sub-table, every field resolves to its default tokens. -/
theorem resolveFields_default (fields : List FieldDefn) :
    resolveFields Defn.default fields
      = .ok (fields.map fun f => (f.name, Expr.tokens f.default_tokens)) := by
  induction fields with
  | nil => rfl
  | cons f rest ih =>
      have h1 : resolveVal Defn.default f = .ok (.tokens f.default_tokens) :=
        resolveVal_lookup_none _ _ rfl
      simp [resolveFields, h1, ih]

/-- C8: with strict mode enabled, the pipeline fails with the strict-mode
message exactly when no component override sub-table was obtained (root not
found, file read or parse failure, package name unset, or component not in
the table); obtaining a sub-table — even an empty one — means the strict
check passes and no strict-mode failure occurs, regardless of whether any
field was actually overridden. -/
theorem strict_mode_iff (fields : List FieldDefn) (tomlCfg : Option String)
    (args : List String) (fs : List String → Option String)
    (parse : String → Option Config) (pkgName : Option String)
    (hstrict : requireCfgPresent tomlCfg = true) :
    toml_config_resolve fields tomlCfg args fs parse pkgName = .error strictCfgMsg
      ↔ maybeCfg args fs parse pkgName = none := by
  cases hm : maybeCfg args fs parse pkgName with
  | none => simp [toml_config_resolve, hstrict, hm]
  | some d =>
      have hres : toml_config_resolve fields tomlCfg args fs parse pkgName
          = resolveFields d fields := by
        simp [toml_config_resolve, hstrict, hm]
      rw [hres]
      constructor
      · intro h
        obtain ⟨r, hr⟩ := resolveFields_error_shape d fields strictCfgMsg h
        exact absurd hr.symm (failed_ne_strict r)
      · intro h
        exact Option.noConfusion h

/-- Witness for C8: with strict mode set and no hint in the arguments the
pipeline fails with the strict message, while an override file whose table
contains the component with an empty sub-table satisfies strict mode. -/
theorem strict_mode_iff_witness :
    toml_config_resolve [] (some "require_cfg_present") [] (fun _ => none)
        (fun _ => none) (some "app") = .error strictCfgMsg
    ∧ toml_config_resolve [] (some "require_cfg_present") ["--out-dir", "p/target"]
        (fun _ => some "") (fun _ => some ⟨[("app", ⟨[]⟩)]⟩) (some "app")
        ≠ .error strictCfgMsg := by
  constructor
  · exact (strict_mode_iff [] (some "require_cfg_present") [] (fun _ => none)
      (fun _ => none) (some "app") (by decide)).mpr rfl
  · intro hres
    have hroot : find_root_path ["--out-dir", "p/target"] = some ["p"] := by
      have h1 : scanArgs ["--out-dir", "p/target"] none = some "p/target" := rfl
      simp only [find_root_path, h1]
      have h2 : splitPath "p/target" = ["p"] ++ "target" :: [] := by decide
      rw [h2]
      exact stripToTarget_concat _ _ (by decide)
    have hm : maybeCfg ["--out-dir", "p/target"] (fun _ => some "")
        (fun _ => some ⟨[("app", ⟨[]⟩)]⟩) (some "app") = some ⟨[]⟩ := by
      simp [maybeCfg, hroot, load_crate_cfg]
    have hnone := (strict_mode_iff [] (some "require_cfg_present")
      ["--out-dir", "p/target"] (fun _ => some "")
      (fun _ => some ⟨[("app", ⟨[]⟩)]⟩) (some "app") (by decide)).mp hres
    rw [hm] at hnone
    exact Option.noConfusion hnone

/-- C9: in non-strict mode, resolving a component absent from every table the
parser can produce is identical to resolving with no override file at all,
and both resolve every field to its declared default. -/
theorem component_absent_eq_no_file (fields : List FieldDefn) (tomlCfg : Option String)
    (args : List String) (fs : List String → Option String)
    (parse : String → Option Config) (name : String)
    (hns : requireCfgPresent tomlCfg = false)
    (habsent : ∀ c cfg, parse c = some cfg → List.lookup name cfg.crates = none) :
    toml_config_resolve fields tomlCfg args fs parse (some name)
      = toml_config_resolve fields tomlCfg args (fun _ => none) parse (some name)
    ∧ toml_config_resolve fields tomlCfg args fs parse (some name)
      = .ok (fields.map fun f => (f.name, Expr.tokens f.default_tokens)) := by
  have hm1 : maybeCfg args fs parse (some name) = none := by
    cases hr : find_root_path args with
    | none => simp [maybeCfg, hr]
    | some root =>
        simp only [maybeCfg, hr, Option.map_some', Option.some_bind]
        cases hc : fs (root ++ ["cfg.toml"]) with
        | none => simp [load_crate_cfg, hc]
        | some c =>
            cases hp : parse c with
            | none => simp [load_crate_cfg, hc, hp]
            | some cfg => simp [load_crate_cfg, hc, hp, habsent c cfg hp]
  have hm2 : maybeCfg args (fun _ => none) parse (some name) = none := by
    cases hr : find_root_path args with
    | none => simp [maybeCfg, hr]
    | some root => simp [maybeCfg, hr, load_crate_cfg]
  constructor
  · simp [toml_config_resolve, hm1, hm2]
  · simp [toml_config_resolve, hm1, hns]
    exact resolveFields_default fields

/-- Witness for C9 (Scenario E of the specification): an override file whose
only table is for another component resolves the field list exactly as the
no-file case, to all defaults. -/
theorem component_absent_eq_no_file_witness :
    toml_config_resolve [⟨"buffer_size", "usize", "(32)"⟩] none
        ["--out-dir", "p/target"] (fun _ => some "x")
        (fun _ => some ⟨[("other", ⟨[]⟩)]⟩) (some "compA")
      = .ok [("buffer_size", .tokens "(32)")] := by
  refine (component_absent_eq_no_file [⟨"buffer_size", "usize", "(32)"⟩] none
    ["--out-dir", "p/target"] (fun _ => some "x")
    (fun _ => some ⟨[("other", ⟨[]⟩)]⟩) "compA" rfl ?_).2
  intro c cfg h
  have he : (⟨[("other", ⟨[]⟩)]⟩ : Config) = cfg := Option.some.inj h
  rw [← he]
  decide

end TomlCfg
